import Mathlib

/-!
Verification of the CAD-COIN single-node ledger service.

This file shallowly embeds the ledger engine of the repository
(`src/models/transaction.py`, `src/models/block.py`, `src/models/blockchain.py`,
`src/config/settings.py`, `src/database/manager.py`) and settles a list of
claims about it.

Modelling conventions:
* Python floats are modelled as rationals (`ℚ`); every numeric operation the
  claims touch (division by powers of two, comparison, addition) is exact.
  The float literal `0.8` is modelled as `4/5`.
* The durable store is modelled as a record of lists mirroring the tables the
  engine reads and writes (blocks, transactions, balances,
  pending_transactions, stable_coins, authorized_minters, mining_attempts,
  chain_stats).  Bookkeeping columns that no code path reads
  (`id SERIAL`, `created_at`, `validation_status`, `frozen_balance`) are
  omitted.  `created_at ASC` ordering is modelled by list insertion order.
* The hot cache (Redis) is modelled, where a claim depends on it, as an
  association list from keys to the cached numeric value; `get` returns the
  cached value on a hit and falls through to the store on a miss, exactly as
  `CacheManager.get` composed with `UltraRobustBlockchain.get_balance` does.
  The memoizing `cache.set` writes mutate only the cache, never the store,
  and are not tracked.
* SHA-256 over the canonical JSON encoding is modelled as an opaque function
  `H` from the exact data that `Block.calculate_hash` serialises (index,
  transaction dictionaries, previous_hash, miner, timestamp, nonce) to hex
  strings; theorems that need it assume only that a hex digest is a
  non-empty string.
* The proof-of-work loop and the wall clock are not computable from the
  state, so `Block.mine_block` is driven by an oracle: whether the loop
  found a nonce before the timeout, which nonce, and the elapsed time.  The
  structural validation that follows mining is modelled in full, so an
  inconsistent oracle is caught by `Block.is_valid` exactly as in the code.
-/

namespace CadCoin

/-- Configuration constants with the environment defaults of
`src/config/settings.py`. -/
structure Config where
  base_mining_reward : ℚ := 50
  base_difficulty : ℤ := 4
  max_difficulty : ℤ := 20
  difficulty_adjustment_interval : ℕ := 10
  halving_interval : ℕ := 100
  target_block_time : ℚ := 10
  max_pending_transactions : ℕ := 1000
  min_transaction_fee : ℚ := 1/1000
  max_block_size : ℕ := 100
  mining_timeout : ℚ := 300

/-- The configuration with every default of `src/config/settings.py`. -/
def defaultCfg : Config := {}

/-- Model of `Transaction` (src/models/transaction.py).  `id` and `timestamp` are
generated at construction time in Python; the model receives them as data. -/
structure Transaction where
  id : String
  sender : String
  receiver : String
  amount : ℚ
  fee : ℚ
  coin_type : String
  transaction_type : String
  metadata : List (String × String)
  timestamp : ℚ
  deriving DecidableEq

/-- Model of `Transaction.is_valid` (transaction.py lines 44-58): returns a success
flag and a human-readable reason. -/
def Transaction.is_valid (tx : Transaction) : Bool × String :=
  if tx.amount ≤ 0 then (false, "Amount must be positive")
  else if tx.fee < 0 then (false, "Fee cannot be negative")
  else if tx.sender.length < 3 || tx.receiver.length < 3 then
    (false, "Invalid address format")
  else if tx.sender == tx.receiver && tx.transaction_type == "transfer" then
    (false, "Cannot transfer to self")
  else (true, "Valid")

/-- Python's `s.startswith(t)` on the underlying character lists. -/
def charsBeginWith : List Char → List Char → Bool
  | _, [] => true
  | [], _ :: _ => false
  | c :: cs, d :: ds => c == d && charsBeginWith cs ds

/-- Python's `s.startswith(t)` for strings. -/
def strBeginsWith (s t : String) : Bool := charsBeginWith s.data t.data

/-- Python's `s.upper()`, character-wise over the ASCII symbols the
repository uses. -/
def pyUpper (s : String) : String := String.mk (s.data.map Char.toUpper)

/-- The proof-of-work target `"0" * difficulty`; Python string repetition
clamps a negative count to the empty string, as `Int.toNat` does. -/
def zeros (d : ℤ) : String := String.mk (List.replicate d.toNat '0')

/-- The exact data hashed by `Block.calculate_hash` (block.py lines 34-43):
the canonical JSON has keys index, transactions (each transaction's
`to_dict()`), previous_hash, miner, timestamp, nonce. -/
structure BlockHashData where
  index : ℕ
  transactions : List Transaction
  previous_hash : String
  miner : String
  timestamp : ℚ
  nonce : ℕ
  deriving DecidableEq

/-- Model of `Block` (src/models/block.py).  `hash` is `None` until mining assigns
it, hence `Option String`. -/
structure Block where
  index : ℕ
  transactions : List Transaction
  previous_hash : String
  miner : String
  timestamp : ℚ
  difficulty : ℤ
  nonce : ℕ
  hash : Option String
  mining_time : ℚ
  max_mining_time : ℚ
  block_size : ℕ
  total_fees : ℚ
  deriving DecidableEq

/-- Model of `Block.__init__` (block.py lines 19-32). -/
def Block.init (index : ℕ) (transactions : List Transaction)
    (previous_hash miner : String) (timestamp : ℚ) (difficulty : ℤ)
    (max_mining_time : ℚ) : Block :=
  { index := index, transactions := transactions, previous_hash := previous_hash,
    miner := miner, timestamp := timestamp, difficulty := difficulty,
    nonce := 0, hash := none, mining_time := 0,
    max_mining_time := max_mining_time,
    block_size := transactions.length,
    total_fees := (transactions.map Transaction.fee).sum }

/-- The data `Block.calculate_hash` serialises from a block. -/
def Block.hashData (b : Block) : BlockHashData :=
  ⟨b.index, b.transactions, b.previous_hash, b.miner, b.timestamp, b.nonce⟩

/-- Model of `Block.calculate_hash` (block.py lines 34-43): SHA-256 of the canonical
JSON, with the digest function `H` abstract. -/
def Block.calculate_hash (H : BlockHashData → String) (b : Block) : String :=
  H b.hashData

/-- Truthiness of the stored hash as Python's `not self.hash` sees it:
falsy when `None` or the empty string. -/
def Block.hash_falsy (b : Block) : Bool :=
  match b.hash with
  | none => true
  | some s => s == ""

/-- Model of `self.hash.startswith(target)`, evaluated only when the hash is truthy;
on `None` the model returns `false` (the Python `or` short-circuits before
this is reached). -/
def Block.hash_begins_with (b : Block) (t : String) : Bool :=
  match b.hash with
  | none => false
  | some s => strBeginsWith s t

/-- Model of `Block.is_valid(expected_previous_hash)` (block.py lines 77-101).
The Python source also contains a no-op `if len == 1 and ... : pass`
branch, which has no effect and is not modelled. -/
def Block.is_valid (H : BlockHashData → String) (b : Block)
    (expected_previous_hash : String) : Bool × String :=
  if b.previous_hash ≠ expected_previous_hash then
    (false, "Invalid previous hash")
  else if b.hash_falsy || !(b.hash_begins_with (zeros b.difficulty)) then
    (false, "Invalid block hash or difficulty")
  else if b.hash ≠ some (b.calculate_hash H) then
    (false, "Block hash verification failed")
  else if b.transactions.length = 0 then
    (false, "Block cannot be empty")
  else
    match b.transactions.find? (fun tx => !(tx.is_valid).1) with
    | some tx => (false, "Invalid transaction " ++ tx.id ++ ": " ++ (tx.is_valid).2)
    | none => (true, "Valid")

/-- Outcome of the proof-of-work loop `Block.mine_block` (block.py lines
45-75), which the model cannot compute (wall clock, SHA-256 search):
whether a nonce was found before the timeout, the final nonce and the
elapsed time. -/
structure PowOutcome where
  found : Bool
  nonce : ℕ
  mining_time : ℚ

/-- Effect of `Block.mine_block` on the block given the oracle: on success
the final nonce is stored and the hash recomputed at that nonce (the loop
invariant of block.py line 54). -/
def Block.mine_block (H : BlockHashData → String) (b : Block)
    (pow : PowOutcome) : Block × Bool :=
  if pow.found then
    let b' := { b with nonce := pow.nonce }
    ({ b' with hash := some (b'.calculate_hash H), mining_time := pow.mining_time }, true)
  else
    ({ b with nonce := pow.nonce, hash := some ((⟨b.index, b.transactions, b.previous_hash, b.miner, b.timestamp, pow.nonce⟩ : BlockHashData) |> H) }, false)

/-- A row of the `blocks` table (manager.py lines 42-58). -/
structure BlockRow where
  index : ℕ
  hash : String
  previous_hash : String
  miner : String
  nonce : ℕ
  difficulty : ℤ
  timestamp : ℚ
  mining_time : ℚ
  block_size : ℕ
  total_fees : ℚ
  deriving DecidableEq

/-- A row of the `transactions` table (manager.py lines 61-77). -/
structure TxRow where
  tx_id : String
  block_index : ℕ
  sender : String
  receiver : String
  amount : ℚ
  fee : ℚ
  coin_type : String
  transaction_type : String
  metadata : List (String × String)
  timestamp : ℚ
  deriving DecidableEq

/-- A row of the `balances` table, uniquely keyed by `(address, coin_type)`
(manager.py lines 95-105). -/
structure BalanceRow where
  address : String
  coin_type : String
  balance : ℚ
  deriving DecidableEq

/-- A row of the `pending_transactions` table (manager.py lines 120-136). -/
structure PendingRow where
  tx_id : String
  sender : String
  receiver : String
  amount : ℚ
  fee : ℚ
  coin_type : String
  transaction_type : String
  metadata : List (String × String)
  timestamp : ℚ
  priority_score : ℤ
  deriving DecidableEq

/-- A row of the `stable_coins` table (manager.py lines 80-92);
`total_supply` defaults to 0. -/
structure StableCoin where
  symbol : String
  name : String
  collateral_ratio : ℚ
  backed_by : String
  max_supply : Option ℚ
  total_supply : ℚ
  creation_date : ℚ
  deriving DecidableEq

/-- A row of the `authorized_minters` table (manager.py lines 108-117). -/
structure MinterRow where
  coin_symbol : String
  minter_address : String
  authorizer : String
  deriving DecidableEq

/-- A row of the `mining_attempts` table (manager.py lines 152-162). -/
structure MiningAttempt where
  block_index : ℕ
  miner : String
  start_time : ℚ
  end_time : Option ℚ
  success : Bool
  attempts_count : ℕ
  deriving DecidableEq

/-- A row of the `chain_stats` table (manager.py lines 139-149). -/
structure ChainStat where
  block_index : ℕ
  current_difficulty : ℤ
  current_reward : ℚ
  avg_block_time : ℚ
  hash_rate : ℚ
  deriving DecidableEq

/-- The durable store.  `blocks` is kept newest-first (every query the
engine issues orders by `index DESC`); append-ordered lists model
`created_at ASC` for the other tables. -/
structure ChainState where
  blocks : List BlockRow
  transactions : List TxRow
  balances : List BalanceRow
  pending : List PendingRow
  stable_coins : List StableCoin
  authorized_minters : List MinterRow
  mining_attempts : List MiningAttempt
  chain_stats : List ChainStat
  deriving DecidableEq

/-- The hot cache, restricted to the numeric balance entries the admission
path can hit: keys mapped to the cached balance. -/
abbrev Cache := List (String × ℚ)

/-- The cache key `f"balance_{address}_{coin_type}"` of
`UltraRobustBlockchain.get_balance` (blockchain.py line 449). -/
def balance_cache_key (address coin_type : String) : String :=
  "balance_" ++ address ++ "_" ++ coin_type

/-- Predicate selecting the unique `balances` row of `(address, coin)`. -/
def BalanceRow.keyed (address coin_type : String) (r : BalanceRow) : Bool :=
  r.address == address && r.coin_type == coin_type

/-- The committed balance as an optional row value:
`SELECT balance FROM balances WHERE address = .. AND coin_type = ..`. -/
def find_balance (balances : List BalanceRow) (address coin_type : String) :
    Option ℚ :=
  (balances.find? (BalanceRow.keyed address coin_type)).map BalanceRow.balance

/-- The committed balance, 0 when the row is absent (blockchain.py
line 460). -/
def store_balance (balances : List BalanceRow) (address coin_type : String) : ℚ :=
  (find_balance balances address coin_type).getD 0

/-- Model of `UltraRobustBlockchain.get_balance` (blockchain.py lines 447-462): the
cached value on a hit, the committed balance on a miss.  The memoizing
`cache.set` on the miss path touches only the cache and is not tracked. -/
def get_balance (cache : Cache) (balances : List BalanceRow)
    (address coin_type : String) : ℚ :=
  match cache.lookup (balance_cache_key address coin_type) with
  | some v => v
  | none => store_balance balances address coin_type

/-- Model of `calculate_mining_reward` (blockchain.py lines 104-111): halving with
integer division in the exponent, floored at 0.1. -/
def calculate_mining_reward (cfg : Config) (block_index : ℕ) : ℚ :=
  let halvings := block_index / cfg.halving_interval
  let reward := cfg.base_mining_reward / 2 ^ halvings
  max reward (1/10)

/-- Model of `calculate_current_difficulty` (blockchain.py lines 64-102).  The SQL
`ORDER BY index DESC LIMIT interval+1` is the `take` on the newest-first
list.  Note the code returns the base difficulty only when the fetched
window is shorter than `difficulty_adjustment_interval` (line 77), and
divides the window's timestamp span by the number of fetched blocks
(line 82), not by the number of inter-block gaps.  The fallback arm of the
match is unreachable whenever the guard passed with a positive interval
(Python would raise an IndexError on an empty fetch with interval 0). -/
def calculate_current_difficulty (cfg : Config) (chain : List BlockRow) : ℤ :=
  let blocks := chain.take (cfg.difficulty_adjustment_interval + 1)
  if blocks.length < cfg.difficulty_adjustment_interval then cfg.base_difficulty
  else
    match blocks.head?, blocks.getLast? with
    | some newest, some oldest =>
      let total_time := newest.timestamp - oldest.timestamp
      let avg_time := total_time / (blocks.length : ℚ)
      let expected_time := cfg.target_block_time
      let current_difficulty := newest.difficulty
      if avg_time < expected_time * (1/2) then
        min (current_difficulty + 2) cfg.max_difficulty
      else if avg_time < expected_time * (4/5) then
        min (current_difficulty + 1) cfg.max_difficulty
      else if avg_time > expected_time * 2 then
        max (current_difficulty - 2) cfg.base_difficulty
      else if avg_time > expected_time * (3/2) then
        max (current_difficulty - 1) cfg.base_difficulty
      else current_difficulty
    | _, _ => cfg.base_difficulty

/-- The retarget table of the amended claim, written as the spec writes it:
one row per disjoint band of the mean `avg` against the target `T`. -/
def difficulty_retarget_table (cfg : Config) (d0 : ℤ) (avg T : ℚ) : ℤ :=
  if avg < T * (1/2) then min (d0 + 2) cfg.max_difficulty
  else if T * (1/2) ≤ avg ∧ avg < T * (4/5) then min (d0 + 1) cfg.max_difficulty
  else if T * (4/5) ≤ avg ∧ avg ≤ T * (3/2) then d0
  else if T * (3/2) < avg ∧ avg ≤ T * 2 then max (d0 - 1) cfg.base_difficulty
  else max (d0 - 2) cfg.base_difficulty

/-- The difficulty rule as the amended claim states it: base difficulty
until at least `difficulty_adjustment_interval` blocks are persisted,
otherwise the retarget table applied to the tip difficulty and the window's
timestamp span divided by the window size. -/
def difficulty_amended (cfg : Config) (chain : List BlockRow) : ℤ :=
  let window := chain.take (cfg.difficulty_adjustment_interval + 1)
  if window.length < cfg.difficulty_adjustment_interval then cfg.base_difficulty
  else
    match window.head?, window.getLast? with
    | some newest, some oldest =>
      difficulty_retarget_table cfg newest.difficulty
        ((newest.timestamp - oldest.timestamp) / (window.length : ℚ))
        cfg.target_block_time
    | _, _ => cfg.base_difficulty

/-- The effective priority `fee + (now - timestamp) / 3600` computed by the
SQL of `get_priority_pending_transactions` (blockchain.py line 175). -/
def pending_priority (now : ℚ) (p : PendingRow) : ℚ :=
  p.fee + (now - p.timestamp) / 3600

/-- Model of `get_priority_pending_transactions` (blockchain.py lines 166-181):
`ORDER BY priority DESC, created_at ASC LIMIT limit`, with the limit
defaulting to `max_block_size` (line 169).  The stable merge sort with the
priority-descending relation models the SQL ordering, insertion order
standing in for `created_at ASC`. -/
def get_priority_pending_transactions (cfg : Config) (pending : List PendingRow)
    (now : ℚ) (limit : Option ℕ) : List PendingRow :=
  let l := limit.getD cfg.max_block_size
  (pending.mergeSort (fun a b => pending_priority now b ≤ pending_priority now a)).take l

/-- The balance upsert
`INSERT .. VALUES (addr, coin, ins) ON CONFLICT (address, coin_type) DO
UPDATE SET balance = f(balance)` used by `update_balances_enhanced`. -/
def upsert_balance (bs : List BalanceRow) (address coin_type : String)
    (ins : ℚ) (upd : ℚ → ℚ) : List BalanceRow :=
  if bs.any (BalanceRow.keyed address coin_type) then
    bs.map (fun r => if BalanceRow.keyed address coin_type r then
      { r with balance := upd r.balance } else r)
  else bs ++ [⟨address, coin_type, ins⟩]

/-- The per-transaction arm of `update_balances_enhanced` (blockchain.py
lines 393-428): `mint_stable` and `mining_reward` credit the receiver,
inserting the amount when the row is absent; any other type debits the
sender — inserting 0 when the sender row is absent (line 420) — and
credits the receiver with the amount. -/
def apply_tx_balances (bs : List BalanceRow) (tx : Transaction) :
    List BalanceRow :=
  if tx.transaction_type == "mint_stable" then
    upsert_balance bs tx.receiver tx.coin_type tx.amount (· + tx.amount)
  else if tx.transaction_type == "mining_reward" then
    upsert_balance bs tx.receiver tx.coin_type tx.amount (· + tx.amount)
  else
    let total_debit := tx.amount + tx.fee
    let bs1 := upsert_balance bs tx.sender tx.coin_type 0 (· - total_debit)
    upsert_balance bs1 tx.receiver tx.coin_type tx.amount (· + tx.amount)

/-- Model of `update_balances_enhanced` (blockchain.py lines 391-428), applied in
transaction order. -/
def update_balances_enhanced (txs : List Transaction)
    (bs : List BalanceRow) : List BalanceRow :=
  txs.foldl apply_tx_balances bs

/-- Model of `create_transaction` (blockchain.py lines 183-235).  The balance check
(line 199) goes through `get_balance`, i.e. through the cache; the pending
count (line 203) is the length of `get_pending_transactions()`, whose
underlying query is capped at `max_block_size` rows.  The model keeps the
check order of the source; every rejection leaves the store unchanged. -/
def create_transaction (cfg : Config) (cache : Cache) (s : ChainState)
    (sender receiver : String) (amount : ℚ) (coin_type : String)
    (fee? : Option ℚ) (tx_id : String) (now : ℚ) :
    Bool × String × ChainState :=
  let fee := fee?.getD (max cfg.min_transaction_fee (amount * (1/1000)))
  if amount ≤ 0 then (false, "Amount must be positive", s)
  else if fee < cfg.min_transaction_fee then (false, "Fee too low", s)
  else if get_balance cache s.balances sender coin_type < amount + fee then
    (false, "Insufficient balance", s)
  else if cfg.max_pending_transactions ≤
      (get_priority_pending_transactions cfg s.pending now none).length then
    (false, "Too many pending transactions", s)
  else if !(s.stable_coins.any (fun c => c.symbol == coin_type)) then
    (false, "Coin type does not exist", s)
  else
    let tx : Transaction :=
      ⟨tx_id, sender, receiver, amount, fee, coin_type, "transfer", [], now⟩
    if !(tx.is_valid).1 then (false, (tx.is_valid).2, s)
    else
      (true, "Transaction added to pending pool",
        { s with pending := s.pending ++
          [⟨tx_id, sender, receiver, amount, fee, coin_type, "transfer", [],
            now, ⌊fee * 1000⌋⟩] })

/-- Model of `SELECT COALESCE(MAX(index), -1) + 1` (blockchain.py line 250). -/
def next_block_index (s : ChainState) : ℕ :=
  (((s.blocks.map (fun b => (b.index : ℤ))).foldl max (-1)) + 1).toNat

/-- The store side of `get_latest_block`: the row of maximal index. -/
def latest_block_row (blocks : List BlockRow) : Option BlockRow :=
  blocks.foldl (fun acc b =>
    match acc with
    | none => some b
    | some a => if a.index < b.index then some b else some a) none

/-- Model of `get_latest_block` (blockchain.py lines 430-445): the cached row when
the cache holds one, otherwise the store row of maximal index. -/
def effective_latest (cache_latest : Option BlockRow)
    (blocks : List BlockRow) : Option BlockRow :=
  match cache_latest with
  | some b => some b
  | none => latest_block_row blocks

/-- The rebuild of a `Transaction` from a pending row (blockchain.py lines
266-278): all fields, including `id` and `timestamp`, are taken from the
row. -/
def pendingToTransaction (p : PendingRow) : Transaction :=
  ⟨p.tx_id, p.sender, p.receiver, p.amount, p.fee, p.coin_type,
    p.transaction_type, p.metadata, p.timestamp⟩

/-- The `transactions` table row written for a mined transaction
(blockchain.py lines 327-335). -/
def txRowOf (block_index : ℕ) (tx : Transaction) : TxRow :=
  ⟨tx.id, block_index, tx.sender, tx.receiver, tx.amount, tx.fee,
    tx.coin_type, tx.transaction_type, tx.metadata, tx.timestamp⟩

/-- The row update of `UPDATE mining_attempts SET end_time = .., success =
FALSE WHERE block_index = .. AND miner = ..` (blockchain.py lines
379-383). -/
def fail_attempt_update (next_index : ℕ) (miner : String) (finish_time : ℚ)
    (a : MiningAttempt) : MiningAttempt :=
  if a.block_index == next_index && a.miner == miner then
    { a with end_time := some finish_time, success := false }
  else a

/-- The row update of `UPDATE mining_attempts SET end_time = .., success =
TRUE, attempts_count = .. WHERE block_index = .. AND miner = ..`
(blockchain.py lines 348-352). -/
def succ_attempt_update (next_index : ℕ) (miner : String) (finish_time : ℚ)
    (attempts_count : ℕ) (a : MiningAttempt) : MiningAttempt :=
  if a.block_index == next_index && a.miner == miner then
    { a with end_time := some finish_time, success := true, attempts_count := attempts_count }
  else a

/-- The transaction list assembled by the miner (blockchain.py lines
262-289): the rebuilt priority transactions followed by the synthetic
reward transaction, whose amount is the halving reward for the next index
plus the collected fees. -/
def mine_assembled (cfg : Config) (s : ChainState) (miner_address : String)
    (now block_timestamp : ℚ) (reward_tx_id : String) : List Transaction :=
  let pending_txs := get_priority_pending_transactions cfg s.pending now none
  let total_fees := (pending_txs.map PendingRow.fee).sum
  pending_txs.map pendingToTransaction ++
    [⟨reward_tx_id, "mining_reward", miner_address,
      calculate_mining_reward cfg (next_block_index s) + total_fees, 0,
      "CAD-COIN", "mining_reward", [], block_timestamp⟩]

/-- The block as it stands after `Block.mine_block` returns: the block
built from the assembled transactions on top of the fetched previous
block, at the adaptive difficulty, with the oracle's nonce and hash. -/
def mined_block (cfg : Config) (H : BlockHashData → String) (s : ChainState)
    (miner_address : String) (now block_timestamp : ℚ)
    (reward_tx_id : String) (pow : PowOutcome) (latest : BlockRow) : Block :=
  let candidate := Block.init (next_block_index s)
    (mine_assembled cfg s miner_address now block_timestamp reward_tx_id)
    latest.hash miner_address block_timestamp
    (calculate_current_difficulty cfg s.blocks) cfg.mining_timeout
  (candidate.mine_block H pow).1

/-- The committed store state after a successful mine (blockchain.py lines
315-362): block row, transaction rows, balance deltas, chain-stats row,
attempt update, and deletion of the processed pending rows. -/
def mine_success_state (cfg : Config) (H : BlockHashData → String)
    (s : ChainState) (miner_address : String)
    (now attempt_start block_timestamp finish_time : ℚ)
    (reward_tx_id : String) (pow : PowOutcome) (latest : BlockRow) :
    ChainState :=
  let next_index := next_block_index s
  let current_difficulty := calculate_current_difficulty cfg s.blocks
  let mining_reward := calculate_mining_reward cfg next_index
  let txs := mine_assembled cfg s miner_address now block_timestamp reward_tx_id
  let mined := mined_block cfg H s miner_address now block_timestamp
    reward_tx_id pow latest
  let block_row : BlockRow :=
    ⟨next_index, (mined.hash).getD "", mined.previous_hash, miner_address,
      mined.nonce, current_difficulty, mined.timestamp, mined.mining_time,
      mined.block_size, mined.total_fees⟩
  let stats_row : ChainStat :=
    ⟨next_index, current_difficulty, mining_reward, mined.mining_time,
      if mined.mining_time > 0 then (mined.nonce : ℚ) / mined.mining_time else 0⟩
  let processed_ids := (txs.dropLast).map Transaction.id
  { blocks := block_row :: s.blocks,
    transactions := s.transactions ++ txs.map (txRowOf next_index),
    balances := update_balances_enhanced txs s.balances,
    pending := s.pending.filter (fun p => !(processed_ids.contains p.tx_id)),
    stable_coins := s.stable_coins,
    authorized_minters := s.authorized_minters,
    mining_attempts :=
      (s.mining_attempts ++
        [(⟨next_index, miner_address, attempt_start, none, false, 0⟩ : MiningAttempt)]).map
        (succ_attempt_update next_index miner_address finish_time mined.nonce),
    chain_stats := s.chain_stats ++ [stats_row] }

/-- The body of `mine_pending_transactions` once `get_latest_block` has
produced the previous block (blockchain.py lines 240-385 past the
dictionary access on line 298).

State effects mirror the source:
* a fresh mining-attempt row is inserted before mining;
* on a proof-of-work timeout the attempt rows of this index and miner are
  marked failed with an end time and the transaction commits — nothing
  else changes;
* when the mined block fails validation the function returns early; the
  connection context manager commits on a normal exit, so the inserted
  attempt row (still `success = FALSE`, no end time) persists;
* on success the store becomes `mine_success_state`. -/
def mine_with_latest (cfg : Config) (H : BlockHashData → String)
    (s : ChainState) (miner_address : String)
    (now attempt_start block_timestamp finish_time : ℚ)
    (reward_tx_id : String) (pow : PowOutcome) (latest : BlockRow) :
    Bool × String × ChainState :=
  let current_difficulty := calculate_current_difficulty cfg s.blocks
  let next_index := next_block_index s
  let attempt : MiningAttempt :=
    ⟨next_index, miner_address, attempt_start, none, false, 0⟩
  let s1 := { s with mining_attempts := s.mining_attempts ++ [attempt] }
  let txs := mine_assembled cfg s miner_address now block_timestamp reward_tx_id
  let candidate := Block.init next_index txs latest.hash miner_address
    block_timestamp current_difficulty cfg.mining_timeout
  let mined := (candidate.mine_block H pow).1
  if (candidate.mine_block H pow).2 then
    let v := mined.is_valid H latest.hash
    if !v.1 then
      (false, "Block validation failed: " ++ v.2, s1)
    else
      (true, "Mined block",
        mine_success_state cfg H s miner_address now attempt_start
          block_timestamp finish_time reward_tx_id pow latest)
  else
    let attempts' := s1.mining_attempts.map
      (fail_attempt_update next_index miner_address finish_time)
    (false, "Mining failed or timed out", { s1 with mining_attempts := attempts' })

/-- Model of `mine_pending_transactions` (blockchain.py lines 237-389).

Oracle-driven data: `H` is the digest function, `pow` the proof-of-work
outcome, `cache_latest` what the `latest_block` cache key holds, and the
`ℚ` arguments are the wall-clock reads (`now` for the priority query,
`attempt_start` for the attempt row, `block_timestamp` for the block
constructor, `finish_time` for the attempt update).

When `get_latest_block` yields nothing the dictionary access on line 298
raises, the enclosing transaction rolls back (undoing the attempt insert)
and the outer handler reports a mining error with the store unchanged;
otherwise `mine_with_latest` runs. -/
def mine_pending_transactions (cfg : Config) (H : BlockHashData → String)
    (s : ChainState) (miner_address : String)
    (now attempt_start block_timestamp finish_time : ℚ)
    (reward_tx_id : String) (pow : PowOutcome)
    (cache_latest : Option BlockRow) : Bool × String × ChainState :=
  match effective_latest cache_latest s.blocks with
  | none => (false, "Mining error", s)
  | some latest => mine_with_latest cfg H s miner_address now attempt_start
      block_timestamp finish_time reward_tx_id pow latest

/-- The transaction rows a mining call appends to the `transactions`
table: everything past the rows that were already persisted. -/
def mine_new_tx_rows (cfg : Config) (H : BlockHashData → String)
    (s : ChainState) (miner_address : String)
    (now attempt_start block_timestamp finish_time : ℚ)
    (reward_tx_id : String) (pow : PowOutcome)
    (cache_latest : Option BlockRow) : List TxRow :=
  ((mine_pending_transactions cfg H s miner_address now attempt_start
    block_timestamp finish_time reward_tx_id pow
    cache_latest).2.2.transactions).drop s.transactions.length

/-- Model of `create_stable_coin` (blockchain.py lines 601-621): the UNIQUE
constraint on `symbol` is the existence check; a new coin starts with the
schema default `total_supply = 0`. -/
def create_stable_coin (s : ChainState) (name symbol : String)
    (collateral_ratio : ℚ) (backed_by : String) (max_supply : Option ℚ)
    (now : ℚ) : Bool × String × ChainState :=
  let symbol := pyUpper symbol
  if s.stable_coins.any (fun c => c.symbol == symbol) then
    (false, "StableCoin already exists", s)
  else
    (true, "StableCoin created",
      { s with stable_coins := s.stable_coins ++
        [⟨symbol, name, collateral_ratio, backed_by, max_supply, 0, now⟩] })

/-- Model of `is_authorized_minter` (blockchain.py lines 651-662): `"system"` is
implicitly authorized. -/
def is_authorized_minter (s : ChainState) (coin_symbol minter : String) : Bool :=
  minter == "system" ||
    s.authorized_minters.any (fun m =>
      m.coin_symbol == coin_symbol && m.minter_address == minter)

/-- Model of `add_authorized_minter` (blockchain.py lines 623-649): requires the
coin to exist and a non-system authorizer to hold at least 100 CAD-COIN
(read through `get_balance`, hence through the cache); `ON CONFLICT DO
NOTHING` makes it idempotent. -/
def add_authorized_minter (cache : Cache) (s : ChainState)
    (coin_symbol minter_address authorizer : String) :
    Bool × String × ChainState :=
  let coin_symbol := pyUpper coin_symbol
  if !(s.stable_coins.any (fun c => c.symbol == coin_symbol)) then
    (false, "StableCoin does not exist", s)
  else if authorizer ≠ "system" ∧
      get_balance cache s.balances authorizer "CAD-COIN" < 100 then
    (false, "Insufficient authorization", s)
  else if s.authorized_minters.any (fun m =>
      m.coin_symbol == coin_symbol && m.minter_address == minter_address) then
    (true, "Minter authorized", s)
  else
    (true, "Minter authorized",
      { s with authorized_minters := s.authorized_minters ++
        [⟨coin_symbol, minter_address, authorizer⟩] })

/-- The body of `mint_stable_coin` once the stablecoin row has been
fetched (blockchain.py lines 678-714): authorization and supply-cap
checks, then the pending `mint_stable` row is inserted and `total_supply`
incremented at enqueue time.  No pending-pool capacity check and no
balance check appear on this path.  `coin_symbol` is already
upper-cased. -/
def mint_with_coin (cfg : Config) (s : ChainState)
    (coin_symbol minter recipient : String) (amount : ℚ) (tx_id : String)
    (now : ℚ) (stable_coin : StableCoin) : Bool × String × ChainState :=
  if !(is_authorized_minter s coin_symbol minter) then
    (false, "Minter not authorized", s)
  else if (match stable_coin.max_supply with
    | some m => decide (m < stable_coin.total_supply + amount)
    | none => false) then
    (false, "Exceeds max supply", s)
  else
    let minting_fee := max cfg.min_transaction_fee (amount * (1/1000))
    (true, "Mint queued",
      { s with
        pending := s.pending ++
          [⟨tx_id, "mint", recipient, amount, minting_fee, coin_symbol,
            "mint_stable",
            [("minter", minter), ("stable_coin", coin_symbol)], now,
            ⌊minting_fee * 1000⌋⟩],
        stable_coins := s.stable_coins.map (fun c =>
          if c.symbol == coin_symbol then
            { c with total_supply := c.total_supply + amount }
          else c) })

/-- Model of `mint_stable_coin` (blockchain.py lines 664-717): positivity and
existence checks, then `mint_with_coin`. -/
def mint_stable_coin (cfg : Config) (s : ChainState)
    (coin_symbol minter recipient : String) (amount : ℚ) (tx_id : String)
    (now : ℚ) : Bool × String × ChainState :=
  if amount ≤ 0 then (false, "Amount must be positive", s)
  else
    match s.stable_coins.find? (fun c => c.symbol == pyUpper coin_symbol) with
    | none => (false, "StableCoin does not exist", s)
    | some stable_coin =>
      mint_with_coin cfg s (pyUpper coin_symbol) minter recipient amount tx_id
        now stable_coin

/-- One public mutating operation of the core, with its oracle data. -/
inductive Op where
  | createTx (cache : Cache) (sender receiver : String) (amount : ℚ)
      (coin_type : String) (fee? : Option ℚ) (tx_id : String) (now : ℚ)
  | mineOp (H : BlockHashData → String) (miner : String)
      (now attempt_start block_timestamp finish_time : ℚ)
      (reward_tx_id : String) (pow : PowOutcome)
      (cache_latest : Option BlockRow)
  | createCoin (name symbol : String) (collateral_ratio : ℚ)
      (backed_by : String) (max_supply : Option ℚ) (now : ℚ)
  | addMinter (cache : Cache) (coin_symbol minter_address authorizer : String)
  | mint (coin_symbol minter recipient : String) (amount : ℚ)
      (tx_id : String) (now : ℚ)

/-- The store state after executing one operation. -/
def apply_op (cfg : Config) (s : ChainState) : Op → ChainState
  | .createTx cache sender receiver amount coin fee? tx_id now =>
    (create_transaction cfg cache s sender receiver amount coin fee? tx_id now).2.2
  | .mineOp H miner now t0 bt tf rid pow cl =>
    (mine_pending_transactions cfg H s miner now t0 bt tf rid pow cl).2.2
  | .createCoin name symbol ratio backed max_supply now =>
    (create_stable_coin s name symbol ratio backed max_supply now).2.2
  | .addMinter cache coin minter authorizer =>
    (add_authorized_minter cache s coin minter authorizer).2.2
  | .mint coin minter recipient amount tx_id now =>
    (mint_stable_coin cfg s coin minter recipient amount tx_id now).2.2

/-- The state after `init_database` and `init_genesis_block`
(manager.py lines 183-188, blockchain.py lines 43-62): the genesis block
row (the genesis digest is the opaque `genesis_hash`), its chain-stats
row, and the seeded CAD-COIN stablecoin with unbounded supply. -/
def genesisState (cfg : Config) (genesis_hash : String) (t0 : ℚ) : ChainState :=
  { blocks := [⟨0, genesis_hash, "0", "genesis", 0, cfg.base_difficulty, t0, 0, 0, 0⟩],
    transactions := [],
    balances := [],
    pending := [],
    stable_coins := [⟨"CAD-COIN", "CAD-COIN", 1, "CAD", none, 0, t0⟩],
    authorized_minters := [],
    mining_attempts := [],
    chain_stats := [⟨0, cfg.base_difficulty, cfg.base_mining_reward, 0, 0⟩] }

/-- Running a sequence of operations from the genesis state. -/
def runOps (cfg : Config) (genesis_hash : String) (t0 : ℚ)
    (ops : List Op) : ChainState :=
  ops.foldl (apply_op cfg) (genesisState cfg genesis_hash t0)

/-- A single stablecoin respects its cap: `total_supply ≤ max_supply`
whenever the cap is bounded. -/
def coinCapOK (c : StableCoin) : Bool :=
  match c.max_supply with
  | some m => decide (c.total_supply ≤ m)
  | none => true

/-- The supply-cap invariant: every stablecoin with a bounded cap has
`total_supply ≤ max_supply`. -/
def SupplyCapOK (s : ChainState) : Prop :=
  ∀ c ∈ s.stable_coins, coinCapOK c = true

instance : DecidablePred SupplyCapOK := fun s =>
  List.decidableBAll _ s.stable_coins

/-- Coins are registered with pairwise distinct symbols (the UNIQUE
constraint on `stable_coins.symbol`). -/
def SymbolsNodup (s : ChainState) : Prop :=
  (s.stable_coins.map StableCoin.symbol).Nodup

/-- Whether an operation only ever registers a coin whose bounded cap is
nonnegative (so the cap is respected by the schema's initial supply 0). -/
def capNonneg : Op → Prop
  | .createCoin _ _ _ _ (some m) _ => 0 ≤ m
  | _ => True

instance : DecidablePred capNonneg := fun op => by
  cases op with
  | createCoin a b c d m e =>
    cases m with
    | none => exact .isTrue trivial
    | some v => exact inferInstanceAs (Decidable (0 ≤ v))
  | createTx a b c d e f g h => exact .isTrue trivial
  | mineOp a b c d e f g h i => exact .isTrue trivial
  | addMinter a b c d => exact .isTrue trivial
  | mint a b c d e f => exact .isTrue trivial

/-! ### Concrete fixtures used by witnesses and counterexamples -/

/-- Ten persisted blocks, newest first, one second apart, all at the base
difficulty (one fewer than the `DIFFICULTY_ADJUSTMENT_INTERVAL + 1` window
of the default configuration). -/
def c2Chain : List BlockRow :=
  [⟨9, "h9", "h8", "m", 0, 4, 9, 0, 0, 0⟩, ⟨8, "h8", "h7", "m", 0, 4, 8, 0, 0, 0⟩,
   ⟨7, "h7", "h6", "m", 0, 4, 7, 0, 0, 0⟩, ⟨6, "h6", "h5", "m", 0, 4, 6, 0, 0, 0⟩,
   ⟨5, "h5", "h4", "m", 0, 4, 5, 0, 0, 0⟩, ⟨4, "h4", "h3", "m", 0, 4, 4, 0, 0, 0⟩,
   ⟨3, "h3", "h2", "m", 0, 4, 3, 0, 0, 0⟩, ⟨2, "h2", "h1", "m", 0, 4, 2, 0, 0, 0⟩,
   ⟨1, "h1", "h0", "m", 0, 4, 1, 0, 0, 0⟩, ⟨0, "h0", "0", "genesis", 0, 4, 0, 0, 0, 0⟩]

/-- A transfer of 10 with fee 1 between two registered-looking addresses. -/
def c5Tx : Transaction :=
  ⟨"t5", "alice", "bob77", 10, 1, "CAD-COIN", "transfer", [], 0⟩

/-- A balance table holding 50 CAD-COIN for the sender of `c5Tx`. -/
def c5Rows : List BalanceRow := [⟨"alice", "CAD-COIN", 50⟩]

/-- A digest function with a constant non-empty output. -/
def c3H : BlockHashData → String := fun _ => "x"

/-- A structurally valid transaction. -/
def c3Tx : Transaction :=
  ⟨"t3", "abc", "xyz", 1, 0, "CAD-COIN", "transfer", [], 0⟩

/-- A block at difficulty 0 whose stored hash agrees with `c3H`. -/
def c3Block : Block :=
  ⟨0, [c3Tx], "p", "m", 0, 0, 0, some "x", 0, 300, 1, 0⟩

/-- A fresh ledger in which `alice` has no committed balance row. -/
def c4State : ChainState := genesisState defaultCfg "g" 0

/-- A cache holding a stale balance of 1000 for `alice`. -/
def c4Cache : Cache := [("balance_alice_CAD-COIN", 1000)]

/-- A legal environment-provided configuration with a small pool bound and
a smaller block size. -/
def c4SmallCfg : Config :=
  { defaultCfg with max_pending_transactions := 5, max_block_size := 3 }

/-- A pending transfer row. -/
def c4PoolRow : PendingRow :=
  ⟨"p1", "carol", "dave5", 1, 1, "CAD-COIN", "transfer", [], 0, 1000⟩

/-- A ledger whose pending pool is exactly at the
`MAX_PENDING_TRANSACTIONS` bound of `c4SmallCfg` and whose sender has
ample committed balance. -/
def c4FullState : ChainState :=
  { genesisState c4SmallCfg "g" 0 with
    pending := List.replicate 5 c4PoolRow,
    balances := [⟨"alice", "CAD-COIN", 100⟩] }

/-- A ledger in which `alice` has a committed balance of 100 CAD-COIN. -/
def c6State : ChainState :=
  { genesisState defaultCfg "g" 0 with balances := [⟨"alice", "CAD-COIN", 100⟩] }

/-- A cache holding a stale balance of 0 for `alice`. -/
def c6StaleCache : Cache := [("balance_alice_CAD-COIN", 0)]

/-- A digest function producing a constant four-zero-prefixed digest. -/
def cwH : BlockHashData → String := fun _ => "0000h"

/-- A fresh post-genesis ledger. -/
def cwState : ChainState := genesisState defaultCfg "g" 0

/-- The genesis block row of `cwState`. -/
def cwGenesisRow : BlockRow := ⟨0, "g", "0", "genesis", 0, 4, 0, 0, 0, 0⟩

/-- A proof-of-work oracle that found nonce 7 after 2 seconds. -/
def cwPowGood : PowOutcome := ⟨true, 7, 2⟩

/-- A proof-of-work oracle that hit the timeout. -/
def cwPowBad : PowOutcome := ⟨false, 0, 0⟩

/-- A pool holding exactly `MAX_BLOCK_SIZE` (default 100) pending rows. -/
def c9Pool : List PendingRow := List.replicate 100 c4PoolRow

/-- A ledger whose pending pool already holds the default
`MAX_PENDING_TRANSACTIONS = 1000` entries. -/
def c10State : ChainState :=
  { genesisState defaultCfg "g" 0 with pending := List.replicate 1000 c4PoolRow }

end CadCoin

namespace CadCoin

/-! ### Theorems -/

/-- Helper: `find?` commutes with a map that does not change which rows
match the predicate. -/
theorem find?_map_keyFixed {α : Type} (f : α → α) (p : α → Bool)
    (l : List α) (hp : ∀ x, p (f x) = p x) :
    (l.map f).find? p = (l.find? p).map f := by
  induction l with
  | nil => simp
  | cons x xs ih =>
    by_cases hx : p x = true
    · simp [List.find?_cons_of_pos, hx, hp x, ih]
    · have hx' : p x = false := by simpa using hx
      have hfx : p (f x) = false := by rw [hp x]; exact hx'
      simp [List.find?_cons_of_neg, hx', hfx, ih]

/-- Helper: a failed `find?` on a prefix passes through an append. -/
theorem find?_append_of_none {α : Type} (p : α → Bool) (l₁ l₂ : List α)
    (h : l₁.find? p = none) : (l₁ ++ l₂).find? p = l₂.find? p := by
  induction l₁ with
  | nil => simp
  | cons x xs ih =>
    by_cases hx : p x = true
    · rw [List.find?_cons_of_pos _ hx] at h
      exact absurd h (by simp)
    · have hx' : p x = false := by simpa using hx
      rw [List.find?_cons_of_neg _ (by simp [hx'])] at h
      simp only [List.cons_append]
      rw [List.find?_cons_of_neg _ (by simp [hx']), ih h]

/-- Helper: a list no element of which matches is invisible to `find?`. -/
theorem find?_eq_none_of_all_neg {α : Type} (p : α → Bool) (l : List α)
    (h : ∀ x ∈ l, p x = false) : l.find? p = none := by
  apply List.find?_eq_none.mpr
  intro x hx
  simp [h x hx]

/-- Helper: an appended tail no element of which matches is invisible to
`find?`. -/
theorem find?_append_right_none {α : Type} (p : α → Bool) (l₁ l₂ : List α)
    (h : l₂.find? p = none) : (l₁ ++ l₂).find? p = l₁.find? p := by
  induction l₁ with
  | nil => simpa using h
  | cons x xs ih =>
    by_cases hx : p x = true
    · simp only [List.cons_append]
      rw [List.find?_cons_of_pos _ hx, List.find?_cons_of_pos _ hx]
    · have hx' : p x = false := by simpa using hx
      simp only [List.cons_append]
      rw [List.find?_cons_of_neg _ (by simp [hx']),
        List.find?_cons_of_neg _ (by simp [hx']), ih]

/-- Helper: the row-update map of `upsert_balance` leaves the key columns
unchanged, so it commutes with key predicates. -/
theorem upsert_map_keyFixed (a c a' c' : String) (u : ℚ → ℚ)
    (x : BalanceRow) :
    BalanceRow.keyed a' c'
      (if BalanceRow.keyed a c x then { x with balance := u x.balance } else x) =
      BalanceRow.keyed a' c' x := by
  by_cases hx : BalanceRow.keyed a c x = true
  · simp only [hx, if_pos]
    simp [BalanceRow.keyed]
  · have hx' : BalanceRow.keyed a c x = false := by simpa using hx
    simp [hx']

/-- Helper: looking up the upserted key after `upsert_balance` yields the
updated balance on an existing row and the inserted value otherwise. -/
theorem find_balance_upsert_same (bs : List BalanceRow) (a c : String)
    (i : ℚ) (u : ℚ → ℚ) :
    find_balance (upsert_balance bs a c i u) a c =
      some ((find_balance bs a c).elim i u) := by
  by_cases hany : bs.any (BalanceRow.keyed a c) = true
  · have hmap := find?_map_keyFixed
      (fun r => if BalanceRow.keyed a c r then { r with balance := u r.balance } else r)
      (BalanceRow.keyed a c) bs (upsert_map_keyFixed a c a c u)
    obtain ⟨r, hr, hkr⟩ := List.any_eq_true.mp hany
    rcases hf : bs.find? (BalanceRow.keyed a c) with _ | r₀
    · exact absurd (by simpa [hkr] using List.find?_eq_none.mp hf r hr) id
    · have hk₀ : BalanceRow.keyed a c r₀ = true := List.find?_some hf
      rw [upsert_balance, if_pos hany, find_balance, hmap, hf]
      simp [hk₀, find_balance, hf]
  · have hany' : bs.any (BalanceRow.keyed a c) = false := by simpa using hany
    have hnone : bs.find? (BalanceRow.keyed a c) = none := by
      apply find?_eq_none_of_all_neg
      intro x hx
      by_cases hk : BalanceRow.keyed a c x = true
      · exact absurd (List.any_eq_true.mpr ⟨x, hx, hk⟩) (by simp [hany'])
      · simpa using hk
    have hkey : BalanceRow.keyed a c (⟨a, c, i⟩ : BalanceRow) = true := by
      simp [BalanceRow.keyed]
    rw [upsert_balance, if_neg (by simp [hany']), find_balance,
      find?_append_of_none _ _ _ hnone, List.find?_cons_of_pos _ hkey]
    simp [find_balance, hnone]

/-- Helper: `upsert_balance` does not disturb lookups of a different
`(address, coin)` key. -/
theorem find_balance_upsert_other (bs : List BalanceRow) (a c a' c' : String)
    (i : ℚ) (u : ℚ → ℚ) (h : ¬(a' = a ∧ c' = c)) :
    find_balance (upsert_balance bs a c i u) a' c' = find_balance bs a' c' := by
  by_cases hany : bs.any (BalanceRow.keyed a c) = true
  · have hmap := find?_map_keyFixed
      (fun r => if BalanceRow.keyed a c r then { r with balance := u r.balance } else r)
      (BalanceRow.keyed a' c') bs (upsert_map_keyFixed a c a' c' u)
    rw [upsert_balance, if_pos hany, find_balance, hmap]
    rcases hf : bs.find? (BalanceRow.keyed a' c') with _ | r₀
    · simp [find_balance, hf]
    · have hk₀ : BalanceRow.keyed a' c' r₀ = true := List.find?_some hf
      have hk₀' : BalanceRow.keyed a c r₀ = false := by
        by_contra hc
        have hc' : BalanceRow.keyed a c r₀ = true := by simpa using hc
        simp [BalanceRow.keyed] at hc' hk₀
        exact h ⟨by rw [← hk₀.1, hc'.1], by rw [← hk₀.2, hc'.2]⟩
      simp [find_balance, hf, hk₀']
  · have hkey : BalanceRow.keyed a' c' (⟨a, c, i⟩ : BalanceRow) = false := by
      by_contra hc
      have hc' : BalanceRow.keyed a' c' (⟨a, c, i⟩ : BalanceRow) = true := by simpa using hc
      simp [BalanceRow.keyed] at hc'
      exact h ⟨hc'.1.symm, hc'.2.symm⟩
    rw [upsert_balance, if_neg (by simpa using hany), find_balance, find_balance,
      find?_append_right_none _ _ _ (by simp [List.find?_cons_of_neg, hkey])]

/-- C5, counterexample.  The claim says a transfer whose sender has no
balance row leaves the sender at `-(amount + fee)`; applying the balance
engine to the transfer `c5Tx` (amount 10, fee 1) over an empty balance
table leaves the sender's freshly created row at 0, not at −11: the
`ON CONFLICT` upsert inserts the literal 0 and only the conflict branch
subtracts the debit. -/
theorem transfer_debit_claim_false :
    find_balance (apply_tx_balances [] c5Tx) "alice" "CAD-COIN" = some 0 ∧
    some (0 : ℚ) ≠ some (-(10 + 1) : ℚ) := by
  constructor
  · decide
  · norm_num

/-- C5, amended.  A committed transfer debits `amount + fee` on the
sender's `(address, coin)` row only when that row already exists; when the
sender's row is absent it is created with balance 0 and the debit is not
applied.  The receiver's row is credited `amount`, a row absent before the
update being treated as balance 0. -/
theorem transfer_balance_effect_amended (bs : List BalanceRow)
    (tx : Transaction) (hty : tx.transaction_type = "transfer")
    (hne : tx.sender ≠ tx.receiver) :
    find_balance (apply_tx_balances bs tx) tx.sender tx.coin_type =
      some ((find_balance bs tx.sender tx.coin_type).elim 0
        (fun b => b - (tx.amount + tx.fee))) ∧
    find_balance (apply_tx_balances bs tx) tx.receiver tx.coin_type =
      some ((find_balance bs tx.receiver tx.coin_type).elim tx.amount
        (fun b => b + tx.amount)) := by
  have h1 : (tx.transaction_type == "mint_stable") = false := by
    simp [hty]
  have h2 : (tx.transaction_type == "mining_reward") = false := by
    simp [hty]
  simp only [apply_tx_balances, h1, h2, Bool.false_eq_true, if_false]
  constructor
  · rw [find_balance_upsert_other _ tx.receiver tx.coin_type tx.sender
      tx.coin_type _ _ (fun hc => hne hc.1),
      find_balance_upsert_same]
  · rw [find_balance_upsert_same,
      find_balance_upsert_other _ tx.sender tx.coin_type tx.receiver
      tx.coin_type _ _ (fun hc => hne hc.1.symm)]

/-- C2, counterexample.  With the default configuration and exactly ten
persisted blocks — fewer than `DIFFICULTY_ADJUSTMENT_INTERVAL + 1 = 11`,
so the claim says the window is not full and the difficulty must be
`BASE_DIFFICULTY = 4` — the code retargets anyway (its guard is
`len(blocks) < interval`, not `< interval + 1`) and, the ten blocks being
one second apart, raises the difficulty to 6. -/
theorem difficulty_window_claim_false :
    c2Chain.length < defaultCfg.difficulty_adjustment_interval + 1 ∧
    calculate_current_difficulty defaultCfg c2Chain ≠ defaultCfg.base_difficulty := by
  constructor
  · decide
  · have h : calculate_current_difficulty defaultCfg c2Chain = 6 := by
      norm_num [calculate_current_difficulty, c2Chain, defaultCfg]
    rw [h]
    decide

/-- Helper: the sequential `elif` chain of the source equals the
disjoint-band retarget table for any nonnegative target block time. -/
theorem retarget_branches (cfg : Config) (d0 : ℤ) (avg T : ℚ) (hT : 0 ≤ T) :
    (if avg < T * (1/2) then min (d0 + 2) cfg.max_difficulty
     else if avg < T * (4/5) then min (d0 + 1) cfg.max_difficulty
     else if avg > T * 2 then max (d0 - 2) cfg.base_difficulty
     else if avg > T * (3/2) then max (d0 - 1) cfg.base_difficulty
     else d0) = difficulty_retarget_table cfg d0 avg T := by
  unfold difficulty_retarget_table
  by_cases h1 : avg < T * (1/2)
  · rw [if_pos h1, if_pos h1]
  · rw [if_neg h1, if_neg h1]
    by_cases h2 : avg < T * (4/5)
    · rw [if_pos h2, if_pos ⟨not_lt.mp h1, h2⟩]
    · rw [if_neg h2,
        if_neg (fun hc : T * (1/2) ≤ avg ∧ avg < T * (4/5) => h2 hc.2)]
      by_cases h3 : avg > T * 2
      · have hc3 : ¬(T * (4/5) ≤ avg ∧ avg ≤ T * (3/2)) := by
          intro hc
          linarith [hc.2]
        have hc4 : ¬(T * (3/2) < avg ∧ avg ≤ T * 2) := by
          intro hc
          linarith [hc.2]
        rw [if_pos h3, if_neg hc3, if_neg hc4]
      · rw [if_neg h3]
        by_cases h4 : avg > T * (3/2)
        · have hc3 : ¬(T * (4/5) ≤ avg ∧ avg ≤ T * (3/2)) := by
            intro hc
            linarith [hc.2]
          rw [if_pos h4, if_neg hc3, if_pos ⟨h4, not_lt.mp h3⟩]
        · rw [if_neg h4, if_pos ⟨not_lt.mp h2, not_lt.mp h4⟩]

/-- C2, amended.  For any nonnegative target block time, the difficulty
for the next block equals `BASE_DIFFICULTY` whenever fewer than
`DIFFICULTY_ADJUSTMENT_INTERVAL` blocks are persisted; otherwise, with
`d0` the newest fetched block's difficulty and `Δ̄` the window's timestamp
span divided by the window size — the window being the newest
`min(chain length, DIFFICULTY_ADJUSTMENT_INTERVAL + 1)` blocks — the next
difficulty follows the retarget table: `min(d0+2, MAX)` for `Δ̄ < 0.5·T`,
`min(d0+1, MAX)` for `0.5·T ≤ Δ̄ < 0.8·T`, `d0` for `0.8·T ≤ Δ̄ ≤ 1.5·T`,
`max(d0−1, BASE)` for `1.5·T < Δ̄ ≤ 2.0·T`, and `max(d0−2, BASE)` for
`Δ̄ > 2.0·T`. -/
theorem difficulty_retarget_amended (cfg : Config) (chain : List BlockRow)
    (hT : 0 ≤ cfg.target_block_time) :
    calculate_current_difficulty cfg chain = difficulty_amended cfg chain := by
  unfold calculate_current_difficulty difficulty_amended
  set window := chain.take (cfg.difficulty_adjustment_interval + 1) with hw
  by_cases hlen : window.length < cfg.difficulty_adjustment_interval
  · simp [hlen]
  · simp only [if_neg hlen]
    rcases hh : window.head? with _ | newest <;> rcases hl : window.getLast? with _ | oldest
    · rfl
    · rfl
    · rfl
    · exact retarget_branches cfg newest.difficulty _ _ hT

/-- C2, witness for the amended theorem at the default configuration and
the concrete ten-block chain. -/
theorem difficulty_retarget_amended_instance :
    calculate_current_difficulty defaultCfg c2Chain =
      difficulty_amended defaultCfg c2Chain :=
  difficulty_retarget_amended defaultCfg c2Chain (by norm_num [defaultCfg])

/-- C3, confirmed.  For every block `B`, expected hash `h` and digest
function whose outputs are non-empty (SHA-256 hex digests always are),
`Block.is_valid` succeeds iff `B.previous_hash = h`, the stored hash is
exactly the recomputed canonical hash, that hash starts with
`B.difficulty` zero characters, the transaction list is non-empty, and
every contained transaction individually validates. -/
theorem block_is_valid_iff (H : BlockHashData → String) (b : Block)
    (eph : String) (hH : ∀ d, H d ≠ "") :
    (b.is_valid H eph).1 = true ↔
      (b.previous_hash = eph ∧
       b.hash = some (b.calculate_hash H) ∧
       strBeginsWith (b.calculate_hash H) (zeros b.difficulty) = true ∧
       b.transactions ≠ [] ∧
       b.transactions.all (fun tx => (tx.is_valid).1) = true) := by
  unfold Block.is_valid
  constructor
  · intro hv
    by_cases hprev : b.previous_hash = eph
    · rw [if_neg (fun hne => hne hprev)] at hv
      by_cases hc2 : (b.hash_falsy || !(b.hash_begins_with (zeros b.difficulty))) = true
      · rw [if_pos hc2] at hv
        exact absurd hv (by simp)
      · have hc2' : b.hash_falsy = false ∧
            b.hash_begins_with (zeros b.difficulty) = true := by
          constructor
          · by_contra hx
            exact hc2 (by simp [by simpa using hx])
          · by_contra hx
            exact hc2 (by simp [by simpa using hx])
        rw [if_neg (by simp [hc2])] at hv
        by_cases hhash : b.hash = some (b.calculate_hash H)
        · rw [if_neg (fun hx => hx hhash)] at hv
          by_cases hlen : b.transactions.length = 0
          · rw [if_pos hlen] at hv
            exact absurd hv (by simp)
          · rw [if_neg hlen] at hv
            rcases hfind : b.transactions.find? (fun tx => !(tx.is_valid).1) with _ | tx
            · refine ⟨hprev, hhash, ?_, ?_, ?_⟩
              · have := hc2'.2
                rw [Block.hash_begins_with, hhash] at this
                exact this
              · exact fun hx => hlen (by simp [hx])
              · apply List.all_eq_true.mpr
                intro x hx
                have := List.find?_eq_none.mp hfind x hx
                simpa using this
            · rw [hfind] at hv
              exact absurd hv (by simp)
        · rw [if_pos hhash] at hv
          exact absurd hv (by simp)
    · rw [if_pos hprev] at hv
      exact absurd hv (by simp)
  · rintro ⟨hprev, hhash, hbegin, hnil, hall⟩
    have hcalc_ne : b.calculate_hash H ≠ "" := hH _
    rw [if_neg (fun hne => hne hprev)]
    have hfalsy : b.hash_falsy = false := by
      rw [Block.hash_falsy, hhash]
      simpa using hcalc_ne
    have hbw : b.hash_begins_with (zeros b.difficulty) = true := by
      rw [Block.hash_begins_with, hhash]
      exact hbegin
    rw [if_neg (by simp [hfalsy, hbw])]
    rw [if_neg (fun hx => hx hhash)]
    rw [if_neg (fun hx => hnil (by simpa using hx))]
    have hnone : b.transactions.find? (fun tx => !(tx.is_valid).1) = none := by
      apply find?_eq_none_of_all_neg
      intro x hx
      simp [List.all_eq_true.mp hall x hx]
    rw [hnone]

/-- C3, witness: the concrete block `c3Block` validates against the
expected previous hash `"p"` under the digest `c3H`. -/
theorem block_is_valid_iff_instance :
    (c3Block.is_valid c3H "p").1 = true :=
  (block_is_valid_iff c3H c3Block "p"
    (fun _ => show ("x" : String) ≠ "" by decide)).mpr (by decide)

/-- Helper: the priority query returns `min(limit, pool size)` rows, the
limit defaulting to `max_block_size`. -/
theorem gppt_length (cfg : Config) (pending : List PendingRow) (now : ℚ)
    (limit : Option ℕ) :
    (get_priority_pending_transactions cfg pending now limit).length =
      min (limit.getD cfg.max_block_size) pending.length := by
  simp [get_priority_pending_transactions, List.length_take,
    List.length_mergeSort]

/-- C4, counterexample, in two parts.  Part one: with the committed
balance of `alice` absent (hence 0, below `amount + fee = 11`) but a stale
cache entry of 1000, the transfer is accepted and a mempool entry is
inserted — the admission balance check reads the cache.  Part two: under
a legal configuration with `MAX_PENDING_TRANSACTIONS = 5` and
`MAX_BLOCK_SIZE = 3`, a pool already holding 5 entries still accepts a
transfer — the pool-capacity guard counts `len(get_pending_transactions())`,
which the query caps at `MAX_BLOCK_SIZE` rows, so it compares 3 against 5. -/
theorem admission_gate_claim_false :
    ((create_transaction defaultCfg c4Cache c4State "alice" "bob77" 10
        "CAD-COIN" (some 1) "t4" 0).1 = true ∧
      store_balance c4State.balances "alice" "CAD-COIN" < 10 + 1 ∧
      (create_transaction defaultCfg c4Cache c4State "alice" "bob77" 10
        "CAD-COIN" (some 1) "t4" 0).2.2.pending ≠ c4State.pending) ∧
    ((create_transaction c4SmallCfg [] c4FullState "alice" "bob77" 10
        "CAD-COIN" (some 1) "t4b" 0).1 = true ∧
      c4SmallCfg.max_pending_transactions ≤ c4FullState.pending.length) := by
  have hcount : (get_priority_pending_transactions c4SmallCfg
      c4FullState.pending 0 none).length = 3 := by
    rw [gppt_length]
    simp [c4FullState, c4SmallCfg, defaultCfg]
  refine ⟨⟨?_, ?_, ?_⟩, ⟨?_, ?_⟩⟩
  · norm_num [create_transaction, get_balance, balance_cache_key, c4Cache,
      c4State, genesisState, defaultCfg, get_priority_pending_transactions,
      Transaction.is_valid]
    try decide
  · norm_num [store_balance, find_balance, c4State, genesisState, defaultCfg]
    try decide
  · norm_num [create_transaction, get_balance, balance_cache_key, c4Cache,
      c4State, genesisState, defaultCfg, get_priority_pending_transactions,
      Transaction.is_valid]
    try decide
  · simp only [create_transaction, Option.getD_some, hcount]
    norm_num [get_balance, balance_cache_key, store_balance, find_balance,
      BalanceRow.keyed, c4FullState, c4SmallCfg, defaultCfg, genesisState,
      Transaction.is_valid]
    try decide
  · norm_num [c4SmallCfg, c4FullState, defaultCfg, genesisState]
    try decide

/-- C4, amended.  Submitting a transfer with an explicit fee is rejected,
with the store left unchanged, whenever the sender's balance as observed
through the hot cache (the cached value when present, the committed
balance otherwise) is below `amount + fee`, whenever the fee is below
`MIN_TRANSACTION_FEE`, or whenever the number of fetched pending rows —
the pool size capped at `MAX_BLOCK_SIZE` — is at least
`MAX_PENDING_TRANSACTIONS`; no mempool entry is inserted under any of
these conditions. -/
theorem admission_gate_amended (cfg : Config) (cache : Cache)
    (s : ChainState) (sender receiver : String) (amount : ℚ)
    (coin_type : String) (fee : ℚ) (tx_id : String) (now : ℚ)
    (h : get_balance cache s.balances sender coin_type < amount + fee ∨
         fee < cfg.min_transaction_fee ∨
         cfg.max_pending_transactions ≤ min cfg.max_block_size s.pending.length) :
    (create_transaction cfg cache s sender receiver amount coin_type
      (some fee) tx_id now).1 = false ∧
    (create_transaction cfg cache s sender receiver amount coin_type
      (some fee) tx_id now).2.2 = s := by
  simp only [create_transaction, Option.getD_some]
  by_cases h1 : amount ≤ 0
  · simp [h1]
  · rw [if_neg h1]
    by_cases h2 : fee < cfg.min_transaction_fee
    · simp [h2]
    · rw [if_neg h2]
      by_cases h3 : get_balance cache s.balances sender coin_type < amount + fee
      · simp [h3]
      · rw [if_neg h3]
        rcases h with h | h | h
        · exact absurd h h3
        · exact absurd h h2
        · rw [if_pos (by rw [gppt_length]; simpa using h)]
          exact ⟨rfl, rfl⟩

/-- C4, witness for the amended theorem: a fee of 0 is below the default
minimum fee, so the transfer is rejected and the genesis state unchanged. -/
theorem admission_gate_amended_instance :
    (create_transaction defaultCfg [] (genesisState defaultCfg "g" 0)
      "alice" "bob77" 10 "CAD-COIN" (some 0) "t" 0).1 = false ∧
    (create_transaction defaultCfg [] (genesisState defaultCfg "g" 0)
      "alice" "bob77" 10 "CAD-COIN" (some 0) "t" 0).2.2 =
      genesisState defaultCfg "g" 0 :=
  admission_gate_amended defaultCfg [] (genesisState defaultCfg "g" 0)
    "alice" "bob77" 10 "CAD-COIN" 0 "t" 0
    (Or.inr (Or.inl (by norm_num [defaultCfg])))

/-- C6, evaluation of the code at the failing input.  The spec requires
the mempool admission path to read the durable store, never the cache; in
the code the admission balance check calls `get_balance`, which consults
the cache first.  Over one and the same store state (`alice` holds a
committed 100), the same transfer is accepted with an empty cache and
rejected with a stale cached balance of 0 — the admission outcome depends
on the cache contents. -/
theorem admission_cache_dependence :
    (create_transaction defaultCfg [] c6State "alice" "bob77" 10 "CAD-COIN"
      (some 1) "t6" 0).1 = true ∧
    (create_transaction defaultCfg c6StaleCache c6State "alice" "bob77" 10
      "CAD-COIN" (some 1) "t6" 0).1 = false := by
  constructor
  · norm_num [create_transaction, get_balance, balance_cache_key,
      store_balance, find_balance, BalanceRow.keyed, c6State, genesisState,
      defaultCfg, get_priority_pending_transactions, Transaction.is_valid]
    try decide
  · norm_num [create_transaction, get_balance, balance_cache_key,
      c6StaleCache, c6State, genesisState, defaultCfg,
      get_priority_pending_transactions, Transaction.is_valid]
    try decide

/-- Helper: submitting a transfer never touches the stablecoin registry. -/
theorem create_transaction_stable_coins (cfg : Config) (cache : Cache)
    (s : ChainState) (sender receiver : String) (amount : ℚ)
    (coin_type : String) (fee? : Option ℚ) (tx_id : String) (now : ℚ) :
    (create_transaction cfg cache s sender receiver amount coin_type fee?
      tx_id now).2.2.stable_coins = s.stable_coins := by
  simp only [create_transaction]
  split_ifs <;> rfl

/-- Helper: mining never touches the stablecoin registry. -/
theorem mine_stable_coins (cfg : Config) (H : BlockHashData → String)
    (s : ChainState) (miner_address : String)
    (now attempt_start block_timestamp finish_time : ℚ)
    (reward_tx_id : String) (pow : PowOutcome)
    (cache_latest : Option BlockRow) :
    (mine_pending_transactions cfg H s miner_address now attempt_start
      block_timestamp finish_time reward_tx_id pow
      cache_latest).2.2.stable_coins = s.stable_coins := by
  unfold mine_pending_transactions
  rcases hl : effective_latest cache_latest s.blocks with _ | latest
  · rfl
  · show (mine_with_latest cfg H s miner_address now attempt_start
      block_timestamp finish_time reward_tx_id pow latest).2.2.stable_coins =
      s.stable_coins
    simp only [mine_with_latest]
    split_ifs <;> rfl

/-- Helper: authorizing a minter never touches the stablecoin registry. -/
theorem add_minter_stable_coins (cache : Cache) (s : ChainState)
    (coin_symbol minter_address authorizer : String) :
    (add_authorized_minter cache s coin_symbol minter_address
      authorizer).2.2.stable_coins = s.stable_coins := by
  simp only [add_authorized_minter]
  split_ifs <;> rfl

/-- Helper: registering a coin preserves symbol uniqueness and — when the
new coin's bounded cap is nonnegative — the supply-cap invariant. -/
theorem create_coin_preserves_inv (s : ChainState) (name symbol : String)
    (ratio : ℚ) (backed : String) (max_supply : Option ℚ) (now : ℚ)
    (hnd : SymbolsNodup s) (hcap : SupplyCapOK s)
    (hm : ∀ m, max_supply = some m → 0 ≤ m) :
    SymbolsNodup ((create_stable_coin s name symbol ratio backed max_supply
      now).2.2) ∧
    SupplyCapOK ((create_stable_coin s name symbol ratio backed max_supply
      now).2.2) := by
  simp only [create_stable_coin]
  by_cases h : s.stable_coins.any (fun c => c.symbol == pyUpper symbol) = true
  · rw [if_pos h]
    exact ⟨hnd, hcap⟩
  · rw [if_neg h]
    have hnotin : pyUpper symbol ∉ s.stable_coins.map StableCoin.symbol := by
      intro hmem
      rcases List.mem_map.mp hmem with ⟨c, hc, hcs⟩
      exact h (List.any_eq_true.mpr ⟨c, hc, by simp [hcs]⟩)
    constructor
    · unfold SymbolsNodup at hnd ⊢
      simp only [List.map_append, List.map_cons, List.map_nil]
      rw [List.nodup_append]
      refine ⟨hnd, by simp, ?_⟩
      intro x hx
      simp only [List.mem_singleton]
      intro hx2
      exact hnotin (hx2 ▸ hx)
    · intro c hc
      rcases List.mem_append.mp hc with hc | hc
      · exact hcap c hc
      · have : c = ⟨pyUpper symbol, name, ratio, backed, max_supply, 0, now⟩ := by
          simpa using hc
        subst this
        rcases hms : max_supply with _ | m
        · simp [coinCapOK]
        · simp [coinCapOK, hms]
          exact hm m hms

/-- Helper: a mint preserves symbol uniqueness and the supply-cap
invariant — the supply-cap guard of `mint_stable_coin` is exactly what the
accepted increment needs. -/
theorem mint_preserves_inv (cfg : Config) (s : ChainState)
    (coin_symbol minter recipient : String) (amount : ℚ) (tx_id : String)
    (now : ℚ) (hnd : SymbolsNodup s) (hcap : SupplyCapOK s) :
    SymbolsNodup ((mint_stable_coin cfg s coin_symbol minter recipient
      amount tx_id now).2.2) ∧
    SupplyCapOK ((mint_stable_coin cfg s coin_symbol minter recipient
      amount tx_id now).2.2) := by
  unfold mint_stable_coin
  by_cases h1 : amount ≤ 0
  · rw [if_pos h1]
    exact ⟨hnd, hcap⟩
  · rw [if_neg h1]
    rcases hf : s.stable_coins.find? (fun c => c.symbol == pyUpper coin_symbol)
      with _ | sc
    · rw [hf]
      exact ⟨hnd, hcap⟩
    · rw [hf]
      show SymbolsNodup ((mint_with_coin cfg s (pyUpper coin_symbol) minter
        recipient amount tx_id now sc).2.2) ∧
        SupplyCapOK ((mint_with_coin cfg s (pyUpper coin_symbol) minter
        recipient amount tx_id now sc).2.2)
      have hsc_mem : sc ∈ s.stable_coins := List.mem_of_find?_eq_some hf
      have hsc_sym : sc.symbol = pyUpper coin_symbol := by
        have := List.find?_some hf
        simpa using this
      simp only [mint_with_coin]
      by_cases h2 : is_authorized_minter s (pyUpper coin_symbol) minter = true
      · rw [if_neg (by simp [h2])]
        by_cases h3 : (match sc.max_supply with
          | some m => decide (m < sc.total_supply + amount)
          | none => false) = true
        · rw [if_pos h3]
          exact ⟨hnd, hcap⟩
        · rw [if_neg h3]
          constructor
          · unfold SymbolsNodup at hnd ⊢
            have : (s.stable_coins.map (fun c =>
                if c.symbol == pyUpper coin_symbol then
                  { c with total_supply := c.total_supply + amount }
                else c)).map StableCoin.symbol =
                s.stable_coins.map StableCoin.symbol := by
              rw [List.map_map]
              apply List.map_congr_left
              intro c _
              simp only [Function.comp_apply]
              split_ifs <;> rfl
            rw [this]
            exact hnd
          · intro c hc
            rcases List.mem_map.mp hc with ⟨c₀, hc₀, hceq⟩
            by_cases hcs : (c₀.symbol == pyUpper coin_symbol) = true
            · have hc₀sc : c₀ = sc := by
                refine List.inj_on_of_nodup_map hnd hc₀ hsc_mem ?_
                rw [hsc_sym]
                simpa using hcs
              subst hc₀sc
              rw [← hceq]
              simp only [hcs, if_true]
              rcases hms : c₀.max_supply with _ | m
              · simp [coinCapOK]
              · simp only [coinCapOK]
                rw [hms] at h3
                simp at h3
                simp
                linarith
            · rw [← hceq]
              simp only [hcs]
              simpa using hcap c₀ hc₀
      · rw [if_pos (by simp [h2])]
        exact ⟨hnd, hcap⟩

/-- Helper: every operation preserves symbol uniqueness and the supply-cap
invariant, provided a registered coin's bounded cap is nonnegative. -/
theorem apply_op_preserves_inv (cfg : Config) (s : ChainState) (op : Op)
    (hnd : SymbolsNodup s) (hcap : SupplyCapOK s) (hop : capNonneg op) :
    SymbolsNodup (apply_op cfg s op) ∧ SupplyCapOK (apply_op cfg s op) := by
  cases op with
  | createTx cache sender receiver amount coin fee? tx_id now =>
    have hsc := create_transaction_stable_coins cfg cache s sender receiver
      amount coin fee? tx_id now
    exact ⟨by unfold SymbolsNodup; rw [apply_op, hsc]; exact hnd,
      by unfold SupplyCapOK; rw [apply_op, hsc]; exact hcap⟩
  | mineOp H miner now t0 bt tf rid pow cl =>
    have hsc := mine_stable_coins cfg H s miner now t0 bt tf rid pow cl
    exact ⟨by unfold SymbolsNodup; rw [apply_op, hsc]; exact hnd,
      by unfold SupplyCapOK; rw [apply_op, hsc]; exact hcap⟩
  | createCoin name symbol ratio backed max_supply now =>
    have hm : ∀ m, max_supply = some m → 0 ≤ m := by
      intro m hm
      rw [hm] at hop
      exact hop
    exact create_coin_preserves_inv s name symbol ratio backed max_supply now
      hnd hcap hm
  | addMinter cache coin minter authorizer =>
    have hsc := add_minter_stable_coins cache s coin minter authorizer
    exact ⟨by unfold SymbolsNodup; rw [apply_op, hsc]; exact hnd,
      by unfold SupplyCapOK; rw [apply_op, hsc]; exact hcap⟩
  | mint coin minter recipient amount tx_id now =>
    exact mint_preserves_inv cfg s coin minter recipient amount tx_id now
      hnd hcap

/-- C7, confirmed.  When the proof-of-work oracle reports a timeout, the
mining operation returns a failure result with the timeout message; the
mining-attempt rows of this block index and miner — the freshly inserted
one among them — are updated with `success = false` and the end time, the
inserted attempt ends as the last row with `success = false` and an end
time set, and nothing else in the store changes: no block row, no
transaction rows, no balance change, no pending deletion, no stablecoin
or chain-stats change. -/
theorem mining_timeout_no_state_change (cfg : Config)
    (H : BlockHashData → String) (s : ChainState) (miner_address : String)
    (now attempt_start block_timestamp finish_time : ℚ)
    (reward_tx_id : String) (pow : PowOutcome)
    (cache_latest : Option BlockRow) (latest : BlockRow)
    (hlatest : effective_latest cache_latest s.blocks = some latest)
    (hpow : pow.found = false) :
    ∃ s' : ChainState,
      mine_pending_transactions cfg H s miner_address now attempt_start
        block_timestamp finish_time reward_tx_id pow cache_latest =
        (false, "Mining failed or timed out", s') ∧
      s'.blocks = s.blocks ∧
      s'.transactions = s.transactions ∧
      s'.balances = s.balances ∧
      s'.pending = s.pending ∧
      s'.stable_coins = s.stable_coins ∧
      s'.authorized_minters = s.authorized_minters ∧
      s'.chain_stats = s.chain_stats ∧
      s'.mining_attempts =
        (s.mining_attempts ++
          [(⟨next_block_index s, miner_address, attempt_start, none, false, 0⟩ : MiningAttempt)]).map
          (fail_attempt_update (next_block_index s) miner_address finish_time) ∧
      s'.mining_attempts.getLast? =
        some (⟨next_block_index s, miner_address, attempt_start,
          some finish_time, false, 0⟩ : MiningAttempt) := by
  refine ⟨{ s with mining_attempts := (s.mining_attempts ++ [(⟨next_block_index s, miner_address, attempt_start, none, false, 0⟩ : MiningAttempt)]).map (fail_attempt_update (next_block_index s) miner_address finish_time) }, ?_, rfl, rfl, rfl, rfl, rfl, rfl, rfl, rfl, ?_⟩
  · unfold mine_pending_transactions
    rw [hlatest]
    show mine_with_latest cfg H s miner_address now attempt_start
      block_timestamp finish_time reward_tx_id pow latest = _
    simp only [mine_with_latest, Block.mine_block, hpow]
    rfl
  · rw [List.map_append]
    simp [List.getLast?_concat, fail_attempt_update]

/-- C7, witness: a timed-out mining run over the fresh genesis ledger
fails with the timeout message and leaves everything but the attempt log
unchanged. -/
theorem mining_timeout_instance :
    ∃ s' : ChainState,
      mine_pending_transactions defaultCfg cwH cwState "alice" 0 1 2 3 "r7"
        cwPowBad none = (false, "Mining failed or timed out", s') ∧
      s'.blocks = cwState.blocks ∧
      s'.transactions = cwState.transactions ∧
      s'.balances = cwState.balances ∧
      s'.pending = cwState.pending ∧
      s'.stable_coins = cwState.stable_coins ∧
      s'.authorized_minters = cwState.authorized_minters ∧
      s'.chain_stats = cwState.chain_stats ∧
      s'.mining_attempts =
        (cwState.mining_attempts ++
          [(⟨next_block_index cwState, "alice", 1, none, false, 0⟩ : MiningAttempt)]).map
          (fail_attempt_update (next_block_index cwState) "alice" 3) ∧
      s'.mining_attempts.getLast? =
        some (⟨next_block_index cwState, "alice", 1, some 3, false,
          0⟩ : MiningAttempt) :=
  mining_timeout_no_state_change defaultCfg cwH cwState "alice" 0 1 2 3 "r7"
    cwPowBad none cwGenesisRow (by decide) rfl

/-- C9, counterexample.  The miner's pull (blockchain.py line 241) calls
`get_priority_pending_transactions()` with no argument, so the query's
default limit `MAX_BLOCK_SIZE` applies: over a pool of 100 pending rows
and the default configuration it selects 100 transactions, not at most
`MAX_BLOCK_SIZE − 1 = 99`. -/
theorem miner_selection_claim_false :
    (get_priority_pending_transactions defaultCfg c9Pool 0 none).length = 100 ∧
    ¬((get_priority_pending_transactions defaultCfg c9Pool 0 none).length ≤
      defaultCfg.max_block_size - 1) := by
  have h := gppt_length defaultCfg c9Pool 0 none
  have h100 : (get_priority_pending_transactions defaultCfg c9Pool 0 none).length = 100 := by
    rw [h]
    decide
  refine ⟨h100, ?_⟩
  rw [h100]
  decide

/-- Helper: a mining call that reports success returns exactly the
committed success state. -/
theorem mine_success_eq (cfg : Config) (H : BlockHashData → String)
    (s : ChainState) (miner_address : String)
    (now attempt_start block_timestamp finish_time : ℚ)
    (reward_tx_id : String) (pow : PowOutcome)
    (cache_latest : Option BlockRow) (latest : BlockRow)
    (hlatest : effective_latest cache_latest s.blocks = some latest)
    (hsucc : (mine_pending_transactions cfg H s miner_address now
      attempt_start block_timestamp finish_time reward_tx_id pow
      cache_latest).1 = true) :
    mine_pending_transactions cfg H s miner_address now attempt_start
      block_timestamp finish_time reward_tx_id pow cache_latest =
      (true, "Mined block",
        mine_success_state cfg H s miner_address now attempt_start
          block_timestamp finish_time reward_tx_id pow latest) := by
  unfold mine_pending_transactions at hsucc ⊢
  rw [hlatest] at hsucc ⊢
  have h1 : (mine_with_latest cfg H s miner_address now attempt_start
      block_timestamp finish_time reward_tx_id pow latest).1 = true := hsucc
  show mine_with_latest cfg H s miner_address now attempt_start
    block_timestamp finish_time reward_tx_id pow latest = _
  clear hsucc
  simp only [mine_with_latest] at h1 ⊢
  by_cases hb : ((Block.init (next_block_index s)
      (mine_assembled cfg s miner_address now block_timestamp reward_tx_id)
      latest.hash miner_address block_timestamp
      (calculate_current_difficulty cfg s.blocks)
      cfg.mining_timeout).mine_block H pow).2 = true
  · rw [if_pos hb] at h1 ⊢
    by_cases hv : (Block.is_valid H ((Block.init (next_block_index s)
        (mine_assembled cfg s miner_address now block_timestamp reward_tx_id)
        latest.hash miner_address block_timestamp
        (calculate_current_difficulty cfg s.blocks)
        cfg.mining_timeout).mine_block H pow).1 latest.hash).1 = true
    · rw [if_neg (by simp [hv])]
    · rw [if_pos (by simp [hv])] at h1
      exact absurd h1 (by simp)
  · rw [if_neg hb] at h1
    exact absurd h1 (by simp)

/-- Helper: every row the priority query returns is a row of the pool. -/
theorem mem_gppt (cfg : Config) (pending : List PendingRow) (now : ℚ)
    (limit : Option ℕ) (p : PendingRow)
    (hp : p ∈ get_priority_pending_transactions cfg pending now limit) :
    p ∈ pending := by
  unfold get_priority_pending_transactions at hp
  exact (List.mem_mergeSort).mp (List.mem_of_mem_take hp)

/-- C9, amended.  When assembling a block the miner selects at most
`MAX_BLOCK_SIZE` pending transactions (the query's default limit), so
after appending the synthetic reward transaction a successfully mined
block holds at most `MAX_BLOCK_SIZE + 1` transactions. -/
theorem miner_selection_amended (cfg : Config) (H : BlockHashData → String)
    (s : ChainState) (miner_address : String)
    (now attempt_start block_timestamp finish_time : ℚ)
    (reward_tx_id : String) (pow : PowOutcome)
    (cache_latest : Option BlockRow) (latest : BlockRow)
    (hlatest : effective_latest cache_latest s.blocks = some latest)
    (hsucc : (mine_pending_transactions cfg H s miner_address now
      attempt_start block_timestamp finish_time reward_tx_id pow
      cache_latest).1 = true) :
    (get_priority_pending_transactions cfg s.pending now none).length ≤
      cfg.max_block_size ∧
    ∃ br : BlockRow,
      (mine_pending_transactions cfg H s miner_address now attempt_start
        block_timestamp finish_time reward_tx_id pow
        cache_latest).2.2.blocks.head? = some br ∧
      br.block_size ≤ cfg.max_block_size + 1 := by
  have hlen : (get_priority_pending_transactions cfg s.pending now none).length ≤
      cfg.max_block_size := by
    rw [gppt_length]
    simp only [Option.getD_none]
    exact min_le_left _ _
  refine ⟨hlen, ?_⟩
  rw [mine_success_eq cfg H s miner_address now attempt_start block_timestamp
    finish_time reward_tx_id pow cache_latest latest hlatest hsucc]
  simp only [mine_success_state]
  refine ⟨_, rfl, ?_⟩
  have hbs : (mined_block cfg H s miner_address now block_timestamp
      reward_tx_id pow latest).block_size =
      (mine_assembled cfg s miner_address now block_timestamp
        reward_tx_id).length := by
    simp only [mined_block, Block.mine_block, Block.init]
    split_ifs <;> rfl
  show (mined_block cfg H s miner_address now block_timestamp reward_tx_id
    pow latest).block_size ≤ cfg.max_block_size + 1
  rw [hbs]
  have hml : (mine_assembled cfg s miner_address now block_timestamp
      reward_tx_id).length =
      (get_priority_pending_transactions cfg s.pending now none).length + 1 := by
    simp [mine_assembled]
  rw [hml]
  omega

/-- Helper: over the fresh genesis ledger, with the constant four-zero
digest and a successful proof-of-work oracle, mining succeeds. -/
theorem cw_success :
    (mine_pending_transactions defaultCfg cwH cwState "alice" 0 1 2 3 "r1"
      cwPowGood none).1 = true := by
  norm_num [mine_pending_transactions, effective_latest, latest_block_row,
    cwState, genesisState, defaultCfg, mine_with_latest, mine_assembled,
    get_priority_pending_transactions, next_block_index, Block.mine_block,
    cwPowGood, Block.init, Block.is_valid, Block.calculate_hash,
    Block.hashData, Block.hash_falsy, Block.hash_begins_with, zeros,
    strBeginsWith, charsBeginWith, cwH, Transaction.is_valid,
    calculate_mining_reward, calculate_current_difficulty, pending_priority]
  try decide

/-- C1, confirmed.  For every successfully mined block, the transaction
rows the miner persists end with the `mining_reward` transaction, and its
amount equals `max(BASE_MINING_REWARD / 2^(i / HALVING_INTERVAL), 0.1)` —
`i` the new block's index, the exponent using integer division — plus the
total fees of the block's non-reward transactions. -/
theorem mining_reward_law (cfg : Config) (H : BlockHashData → String)
    (s : ChainState) (miner_address : String)
    (now attempt_start block_timestamp finish_time : ℚ)
    (reward_tx_id : String) (pow : PowOutcome)
    (cache_latest : Option BlockRow) (latest : BlockRow)
    (hlatest : effective_latest cache_latest s.blocks = some latest)
    (hpend : ∀ p ∈ s.pending, p.transaction_type ≠ "mining_reward")
    (hsucc : (mine_pending_transactions cfg H s miner_address now
      attempt_start block_timestamp finish_time reward_tx_id pow
      cache_latest).1 = true) :
    ∃ r : TxRow,
      (mine_new_tx_rows cfg H s miner_address now attempt_start
        block_timestamp finish_time reward_tx_id pow cache_latest).getLast? =
        some r ∧
      r.transaction_type = "mining_reward" ∧
      r.amount =
        max (cfg.base_mining_reward /
          2 ^ (next_block_index s / cfg.halving_interval)) (1/10) +
        (((mine_new_tx_rows cfg H s miner_address now attempt_start
            block_timestamp finish_time reward_tx_id pow cache_latest).filter
            (fun t => !(t.transaction_type == "mining_reward"))).map
          TxRow.fee).sum := by
  have hrows : mine_new_tx_rows cfg H s miner_address now attempt_start
      block_timestamp finish_time reward_tx_id pow cache_latest =
      (mine_assembled cfg s miner_address now block_timestamp
        reward_tx_id).map (txRowOf (next_block_index s)) := by
    unfold mine_new_tx_rows
    rw [mine_success_eq cfg H s miner_address now attempt_start
      block_timestamp finish_time reward_tx_id pow cache_latest latest
      hlatest hsucc]
    simp only [mine_success_state]
    simp
  rw [hrows]
  simp only [mine_assembled, List.map_append, List.map_cons, List.map_nil]
  refine ⟨_, by rw [List.getLast?_concat], rfl, ?_⟩
  have hself : (List.map (txRowOf (next_block_index s))
      (List.map pendingToTransaction
        (get_priority_pending_transactions cfg s.pending now none))).filter
      (fun t => !(t.transaction_type == "mining_reward")) =
      List.map (txRowOf (next_block_index s))
        (List.map pendingToTransaction
          (get_priority_pending_transactions cfg s.pending now none)) := by
    apply List.filter_eq_self.mpr
    intro row hrow
    rcases List.mem_map.mp hrow with ⟨t, ht, rfl⟩
    rcases List.mem_map.mp ht with ⟨p, hp, rfl⟩
    have hne := hpend p (mem_gppt cfg s.pending now none p hp)
    simp [txRowOf, pendingToTransaction, hne]
  rw [List.filter_append, hself]
  have hrw : List.filter (fun t => !(t.transaction_type == "mining_reward"))
      [txRowOf (next_block_index s)
        ⟨reward_tx_id, "mining_reward", miner_address,
          calculate_mining_reward cfg (next_block_index s) +
            ((get_priority_pending_transactions cfg s.pending now
              none).map PendingRow.fee).sum, 0, "CAD-COIN", "mining_reward",
          [], block_timestamp⟩] = [] := by
    simp [txRowOf]
  rw [hrw, List.append_nil, List.map_map, List.map_map]
  show (txRowOf (next_block_index s) _).amount = _
  simp only [txRowOf, calculate_mining_reward]
  rfl

/-- C1, witness: a successful mine over the fresh genesis ledger yields
the reward row with amount `max(50 / 2^0, 0.1) + 0 = 50`. -/
theorem mining_reward_law_instance :
    ∃ r : TxRow,
      (mine_new_tx_rows defaultCfg cwH cwState "alice" 0 1 2 3 "r1"
        cwPowGood none).getLast? = some r ∧
      r.transaction_type = "mining_reward" ∧
      r.amount =
        max (defaultCfg.base_mining_reward /
          2 ^ (next_block_index cwState / defaultCfg.halving_interval)) (1/10) +
        (((mine_new_tx_rows defaultCfg cwH cwState "alice" 0 1 2 3 "r1"
            cwPowGood none).filter
            (fun t => !(t.transaction_type == "mining_reward"))).map
          TxRow.fee).sum :=
  mining_reward_law defaultCfg cwH cwState "alice" 0 1 2 3 "r1" cwPowGood
    none cwGenesisRow (by decide) (by simp [cwState, genesisState]) cw_success

/-- C9, witness for the amended theorem: the successful mine over the
fresh genesis ledger selects no pending transaction and commits a block of
one transaction, within the bound. -/
theorem miner_selection_amended_instance :
    (get_priority_pending_transactions defaultCfg cwState.pending 0
      none).length ≤ defaultCfg.max_block_size ∧
    ∃ br : BlockRow,
      (mine_pending_transactions defaultCfg cwH cwState "alice" 0 1 2 3 "r1"
        cwPowGood none).2.2.blocks.head? = some br ∧
      br.block_size ≤ defaultCfg.max_block_size + 1 :=
  miner_selection_amended defaultCfg cwH cwState "alice" 0 1 2 3 "r1"
    cwPowGood none cwGenesisRow (by decide) cw_success

/-- C10, confirmed.  Minting enqueues its pending `mint_stable` row
without any pool-capacity or balance check: whenever the coin exists, the
minter is authorized (or `"system"`), the amount is positive and the cap
is respected, the mint succeeds and appends its pending row as-is — for
every state, with no condition on the pending pool's size or on any
balance. -/
theorem mint_ignores_pool_capacity (cfg : Config) (s : ChainState)
    (coin_symbol minter recipient : String) (amount : ℚ) (tx_id : String)
    (now : ℚ) (sc : StableCoin)
    (hfind : s.stable_coins.find?
      (fun c => c.symbol == pyUpper coin_symbol) = some sc)
    (hauth : is_authorized_minter s (pyUpper coin_symbol) minter = true)
    (hpos : 0 < amount)
    (hcap : ∀ m, sc.max_supply = some m → sc.total_supply + amount ≤ m) :
    (mint_stable_coin cfg s coin_symbol minter recipient amount tx_id
      now).1 = true ∧
    (mint_stable_coin cfg s coin_symbol minter recipient amount tx_id
      now).2.2.pending =
      s.pending ++
        [(⟨tx_id, "mint", recipient, amount,
          max cfg.min_transaction_fee (amount * (1/1000)),
          pyUpper coin_symbol, "mint_stable",
          [("minter", minter), ("stable_coin", pyUpper coin_symbol)], now,
          ⌊(max cfg.min_transaction_fee (amount * (1/1000))) * 1000⌋⟩ :
          PendingRow)] := by
  unfold mint_stable_coin
  rw [if_neg (by linarith), hfind]
  show (mint_with_coin cfg s (pyUpper coin_symbol) minter recipient amount
      tx_id now sc).1 = true ∧
    (mint_with_coin cfg s (pyUpper coin_symbol) minter recipient amount
      tx_id now sc).2.2.pending = _
  simp only [mint_with_coin]
  rw [if_neg (by simp [hauth])]
  have hc : (match sc.max_supply with
      | some m => decide (m < sc.total_supply + amount)
      | none => false) = false := by
    rcases hms : sc.max_supply with _ | m
    · rfl
    · exact decide_eq_false (not_lt.mpr (hcap m hms))
  rw [if_neg (by simp [hc])]
  exact ⟨rfl, rfl⟩

/-- C10, witness: over a ledger whose pool already holds the default
`MAX_PENDING_TRANSACTIONS = 1000` entries, minting 5 CAD-COIN as
`"system"` succeeds and appends the pending mint row. -/
theorem mint_ignores_pool_capacity_instance :
    c10State.pending.length = defaultCfg.max_pending_transactions ∧
    ((mint_stable_coin defaultCfg c10State "CAD-COIN" "system" "alice" 5
        "m10" 0).1 = true ∧
      (mint_stable_coin defaultCfg c10State "CAD-COIN" "system" "alice" 5
        "m10" 0).2.2.pending =
        c10State.pending ++
          [(⟨"m10", "mint", "alice", 5,
            max defaultCfg.min_transaction_fee (5 * (1/1000)),
            pyUpper "CAD-COIN", "mint_stable",
            [("minter", "system"), ("stable_coin", pyUpper "CAD-COIN")], 0,
            ⌊(max defaultCfg.min_transaction_fee (5 * (1/1000))) * 1000⌋⟩ :
            PendingRow)]) :=
  ⟨show (List.replicate 1000 c4PoolRow).length = 1000 from
    List.length_replicate 1000 c4PoolRow,
    mint_ignores_pool_capacity defaultCfg c10State "CAD-COIN" "system"
      "alice" 5 "m10" 0 ⟨"CAD-COIN", "CAD-COIN", 1, "CAD", none, 0, 0⟩
      (by decide) (by decide) (by decide) (fun m hm => Option.noConfusion hm)⟩

/-- C8, counterexample.  `create_stable_coin` accepts a negative
`max_supply` without validation, so one reachable operation — registering
a coin whose cap is −1 while its `total_supply` starts at the schema
default 0 — already violates `total_supply ≤ max_supply`. -/
theorem supply_cap_claim_false :
    ¬ SupplyCapOK (apply_op defaultCfg (genesisState defaultCfg "g" 0)
      (Op.createCoin "Bad" "BAD" 1 "CAD" (some (-1)) 0)) := by
  intro h
  have hmem : (⟨pyUpper "BAD", "Bad", 1, "CAD", some (-1), 0, 0⟩ : StableCoin) ∈
      (apply_op defaultCfg (genesisState defaultCfg "g" 0)
        (Op.createCoin "Bad" "BAD" 1 "CAD" (some (-1)) 0)).stable_coins := by
    decide
  have hbad := h _ hmem
  rw [coinCapOK] at hbad
  simp at hbad
  exact absurd hbad (by norm_num)

/-- C8, amended.  Starting from the genesis state, for every sequence of
core operations in which each registered coin's bounded `max_supply` is
nonnegative, every stablecoin with a bounded cap satisfies
`total_supply ≤ max_supply` in the resulting state: minting is rejected
whenever `total_supply + amount` would exceed the cap, and minting is the
only operation that increases `total_supply`. -/
theorem supply_cap_invariant_amended (cfg : Config) (genesis_hash : String)
    (t0 : ℚ) (ops : List Op) (h : ∀ op ∈ ops, capNonneg op) :
    SupplyCapOK (runOps cfg genesis_hash t0 ops) := by
  have hgen_nd : SymbolsNodup (genesisState cfg genesis_hash t0) := by
    simp [SymbolsNodup, genesisState]
  have hgen_cap : SupplyCapOK (genesisState cfg genesis_hash t0) := by
    intro c hc
    simp [genesisState] at hc
    subst hc
    simp [coinCapOK]
  suffices hs : ∀ (ops : List Op) (s : ChainState), SymbolsNodup s →
      SupplyCapOK s → (∀ op ∈ ops, capNonneg op) →
      SymbolsNodup (ops.foldl (apply_op cfg) s) ∧
      SupplyCapOK (ops.foldl (apply_op cfg) s) by
    exact (hs ops (genesisState cfg genesis_hash t0) hgen_nd hgen_cap h).2
  intro ops
  induction ops with
  | nil => exact fun s hnd hcap _ => ⟨hnd, hcap⟩
  | cons op rest ih =>
    intro s hnd hcap hops
    have hstep := apply_op_preserves_inv cfg s op hnd hcap
      (hops op (List.mem_cons_self op rest))
    exact ih (apply_op cfg s op) hstep.1 hstep.2
      (fun o ho => hops o (List.mem_cons_of_mem op ho))

/-- C8, witness for the amended theorem: registering a coin capped at 100
and minting 40 of it keeps the invariant. -/
theorem supply_cap_invariant_instance :
    SupplyCapOK (runOps defaultCfg "g" 0
      [Op.createCoin "Token" "TOK" 1 "CAD" (some 100) 0,
       Op.mint "TOK" "system" "alice" 40 "m1" 0]) :=
  supply_cap_invariant_amended defaultCfg "g" 0
    [Op.createCoin "Token" "TOK" 1 "CAD" (some 100) 0,
     Op.mint "TOK" "system" "alice" 40 "m1" 0] (by decide)

/-- C5, witness for the amended theorem: the transfer `c5Tx` applied over
a table in which the sender holds 50 debits the sender to 39 and creates
the receiver's row at 10. -/
theorem transfer_balance_effect_instance :
    find_balance (apply_tx_balances c5Rows c5Tx) c5Tx.sender c5Tx.coin_type =
      some ((find_balance c5Rows c5Tx.sender c5Tx.coin_type).elim 0
        (fun b => b - (c5Tx.amount + c5Tx.fee))) ∧
    find_balance (apply_tx_balances c5Rows c5Tx) c5Tx.receiver c5Tx.coin_type =
      some ((find_balance c5Rows c5Tx.receiver c5Tx.coin_type).elim c5Tx.amount
        (fun b => b + c5Tx.amount)) :=
  transfer_balance_effect_amended c5Rows c5Tx (by decide) (by decide)

end CadCoin
